import Mathlib

/-!
# Verification of the `toil` parallel-processing library

Shallow embedding of the Go package `toil` (files `options.go`, `reduce.go` /
`part_001`, `part_002`, `doc.go`) and proofs of the spec's claims about it.

Conventions of the embedding:

* Go slices become `List`s; Go's `error` (nil / non-nil) becomes `Option ε`
  for an abstract error type `ε` (`none` = nil).
* Go's zero value of a type becomes `default` of an `Inhabited` instance.
* The repository contains two revisions of each engine.  The spec (round
  buffer with indexed writes, worker pool pulling from a job channel,
  lock-free `atomic.Pointer` first-error latch) was written from the
  indexed-write revision (`part_001` for `ParallelReduce`, `part_002` for
  `ParallelTransform`); those are the functions embedded here.
* Concurrency: the functional result of both engines is independent of
  scheduling because every goroutine writes to its own statically assigned
  index of a pre-sized buffer (`next[resultIndex] = res` in `part_001`,
  `results[job.index] = result` in `part_002`) and the error latch is a
  single compare-and-swap cell.  The only scheduling-dependent observables
  are (a) *which* error wins the latch when several invocations fail, and
  (b) in fail-fast mode, *which* jobs are still invoked before the drainer
  empties the queue.  (a) is fixed in the executable definitions to the
  earliest-index error (no verified claim depends on the choice); (b) is
  modelled by quantifying over all admissible runs (`FFRun`), and the
  dispatch discipline itself is modelled operationally (`PoolStep`,
  `SemStep`).
-/

namespace Toil

/-- Embeds `Options` from `src/options.go` lines 4-7: a worker count and the
fail-fast flag.  `workers : Int` mirrors Go's `int` (zero or negative means
"use the number of CPU cores"). -/
structure Options where
  workers : Int
  stopOnError : Bool
deriving DecidableEq

/-- Embeds `Options.WithWorkers` (`src/options.go` lines 10-13): value
semantics, returns an updated copy. -/
def Options.WithWorkers (o : Options) (w : Int) : Options :=
  { o with workers := w }

/-- Embeds `Options.StopOnError` (`src/options.go` lines 17-20). -/
def Options.SetStopOnError (o : Options) (b : Bool) : Options :=
  { o with stopOnError := b }

/-- The worker count actually used by both engines: both `ParallelReduce` and
`ParallelTransform` begin with `if opts.workers <= 0 { opts.workers =
runtime.NumCPU() }`.  `numCPU` abstracts `runtime.NumCPU()` (the host's
hardware concurrency). -/
def effectiveWorkers (numCPU : Nat) (o : Options) : Nat :=
  if o.workers ≤ 0 then numCPU else o.workers.toNat

/-! ## The Reduce engine (`src/unnamed/part_001`, function `ParallelReduce`)

One round of the loop body (`part_001` lines 32-75): adjacent pairs
`(items[i], items[i+1])` for `i = 0, 2, 4, …` are combined by `f`, the result
of pair `k = i/2` is written to slot `k` of the pre-sized buffer
`next := make([]T, (len(items)+1)/2)`, and when the length is odd the last
element is copied unmodified into the final slot (`next[nextCap-1] =
items[len(items)-1]`, line 64).  Errors are latched first-wins
(`firstErr.CompareAndSwap(nil, &err)`, line 54); the latch is inspected only
after `wg.Wait()`, i.e. after the whole round completed (lines 67-72).

Which error wins the CAS when several pairs of one round fail is
scheduling-dependent; `reduceRound` fixes the earliest pair in index order.
No claim proved below depends on this choice, only on the latch being
set iff some pair of the round failed. -/

/-- First-write-wins combination of two latch states: the `atomic.Pointer`
error latch keeps the value already stored. -/
def latchFirst {ε : Type} (a b : Option ε) : Option ε :=
  match a with
  | some e => some e
  | none => b

@[simp] theorem latchFirst_some {ε : Type} (e : ε) (b : Option ε) :
    latchFirst (some e) b = some e := rfl

@[simp] theorem latchFirst_none {ε : Type} (b : Option ε) :
    latchFirst none b = b := rfl

variable {T : Type} {ε : Type}

/-- One round of `ParallelReduce` (`part_001` lines 40-65): the list of
next-round values together with the round's latched error.  The equation
`reduceRound f (a :: b :: rest) = ((f a b).1 :: …, …)` realises the indexed
writes `next[i/2] = (f items[i] items[i+1]).1`; the `[x]` equation realises
the odd-element carry `next[nextCap-1] = items[len(items)-1]`. -/
def reduceRound (f : T → T → T × Option ε) : List T → List T × Option ε
  | [] => ([], none)
  | [x] => ([x], none)
  | a :: b :: rest =>
      ((f a b).1 :: (reduceRound f rest).1,
        latchFirst (f a b).2 (reduceRound f rest).2)

/-- The pairs on which `f` is invoked during one round: every adjacent pair
is dispatched (`part_001` lines 43-59) and the latch is only read after
`wg.Wait()`, so all of them run even when one fails. -/
def roundPairs : List T → List (T × T)
  | [] => []
  | [_] => []
  | a :: b :: rest => (a, b) :: roundPairs rest

theorem reduceRound_length (f : T → T → T × Option ε) :
    ∀ l : List T, (reduceRound f l).1.length = (l.length + 1) / 2
  | [] => by simp [reduceRound]
  | [_] => by simp [reduceRound]
  | a :: b :: rest => by
      simp only [reduceRound, List.length_cons]
      rw [reduceRound_length f rest]
      omega

theorem reduceRound_err_iff (f : T → T → T × Option ε) :
    ∀ l : List T,
      ((reduceRound f l).2).isSome = true ↔
        ∃ p ∈ roundPairs l, ((f p.1 p.2).2).isSome = true
  | [] => by simp [reduceRound, roundPairs]
  | [x] => by simp [reduceRound, roundPairs]
  | a :: b :: rest => by
      simp only [reduceRound, roundPairs, List.mem_cons]
      cases hab : (f a b).2 with
      | some e =>
          simp only [latchFirst_some, Option.isSome_some, true_iff]
          exact ⟨(a, b), Or.inl rfl, by simp [hab]⟩
      | none =>
          simp only [latchFirst_none]
          rw [reduceRound_err_iff f rest]
          constructor
          · rintro ⟨p, hp, he⟩
            exact ⟨p, Or.inr hp, he⟩
          · rintro ⟨p, hp | hp, he⟩
            · subst hp
              simp [hab] at he
            · exact ⟨p, hp, he⟩

/-- The round loop of `ParallelReduce` (`part_001` lines 32-76): while more
than one element remains, run one round; after the round, if the latch is
set, return the zero value together with the latched error (lines 70-72),
otherwise the round buffer becomes the next round's input (`items = next`,
line 74).  When one element remains it is the result (line 76). -/
def reduceLoop [Inhabited T] (f : T → T → T × Option ε) (items : List T) :
    T × Option ε :=
  if h : 2 ≤ items.length then
    if he : ((reduceRound f items).2).isSome then
      (default, (reduceRound f items).2)
    else
      reduceLoop f (reduceRound f items).1
  else
    (items.headD default, none)
termination_by items.length
decreasing_by
  rw [reduceRound_length]
  omega

/-- The invocations of `f` actually performed by the round loop: all pairs of
each executed round, stopping after a round whose latch is set (the engine
returns without proceeding to further rounds, `part_001` lines 70-72). -/
def reduceLoopCalls (f : T → T → T × Option ε) (items : List T) :
    List (T × T) :=
  if h : 2 ≤ items.length then
    roundPairs items ++
      (if ((reduceRound f items).2).isSome then []
       else reduceLoopCalls f (reduceRound f items).1)
  else
    []
termination_by items.length
decreasing_by
  rw [reduceRound_length]
  omega

/-- Embeds `ParallelReduce` (`part_001` lines 18-77).  The `opts` parameter
is kept from the Go signature; the worker count only bounds concurrency
(modelled separately by `SemStep`) and cannot affect the value computed,
because every pair result goes to its statically assigned buffer slot. -/
def ParallelReduce [Inhabited T] (v : List T) (f : T → T → T × Option ε)
    (opts : Options) : T × Option ε :=
  if v.length = 0 then (default, none)
  else if v.length = 1 then (v.headD default, none)
  else reduceLoop f v

/-- The invocations of `f` performed by a `ParallelReduce` call: none when
`n ≤ 1` (`part_001` lines 20-25 return before any goroutine is spawned). -/
def ParallelReduceCalls [Inhabited T] (v : List T)
    (f : T → T → T × Option ε) (opts : Options) : List (T × T) :=
  if v.length ≤ 1 then [] else reduceLoopCalls f v

/-! ### Error-free rounds and the fold equivalence -/

/-- The value part of one round for an error-free combining function `g`. -/
def pureRound (g : T → T → T) : List T → List T
  | [] => []
  | [x] => [x]
  | a :: b :: rest => g a b :: pureRound g rest

theorem pureRound_length (g : T → T → T) :
    ∀ l : List T, (pureRound g l).length = (l.length + 1) / 2
  | [] => by simp [pureRound]
  | [_] => by simp [pureRound]
  | a :: b :: rest => by
      simp only [pureRound, List.length_cons]
      rw [pureRound_length g rest]
      omega

theorem reduceRound_pure (g : T → T → T) :
    ∀ l : List T,
      reduceRound (fun a b => (g a b, (none : Option ε))) l =
        (pureRound g l, none)
  | [] => rfl
  | [_] => rfl
  | a :: b :: rest => by
      simp only [reduceRound, pureRound]
      rw [reduceRound_pure g rest]
      simp

/-- Pairing adjacent elements preserves a left fold, for associative `g`. -/
theorem pureRound_foldl (g : T → T → T)
    (hg : ∀ x y z, g (g x y) z = g x (g y z)) :
    ∀ (l : List T) (a : T), (pureRound g l).foldl g a = l.foldl g a
  | [], _ => rfl
  | [_], _ => rfl
  | x :: y :: rest, a => by
      simp only [pureRound, List.foldl_cons]
      rw [pureRound_foldl g hg rest, hg]

/-- Pairing adjacent elements preserves the fold of a nonempty list with its
head as the accumulator. -/
theorem pureRound_foldAll (g : T → T → T)
    (hg : ∀ x y z, g (g x y) z = g x (g y z)) [Inhabited T] :
    ∀ l : List T, l ≠ [] →
      ((pureRound g l).tail).foldl g ((pureRound g l).headD default) =
        (l.tail).foldl g (l.headD default)
  | [], h => absurd rfl h
  | [_], _ => rfl
  | x :: y :: rest, _ => by
      simp only [pureRound, List.tail_cons, List.headD_cons, List.foldl_cons]
      rw [pureRound_foldl g hg rest]

theorem reduceLoop_pure [Inhabited T] (g : T → T → T)
    (hg : ∀ x y z, g (g x y) z = g x (g y z)) :
    ∀ l : List T, l ≠ [] →
      reduceLoop (fun a b => (g a b, (none : Option ε))) l =
        ((l.tail).foldl g (l.headD default), none)
  | l, hl => by
    rw [reduceLoop]
    by_cases h : 2 ≤ l.length
    · rw [dif_pos h, reduceRound_pure g l]
      simp only [Option.isSome_none, Bool.false_eq_true, dif_neg,
        not_false_iff]
      have hne : pureRound g l ≠ [] := by
        have := pureRound_length g l
        intro hc
        rw [hc] at this
        simp at this
        omega
      rw [reduceLoop_pure g hg (pureRound g l) hne,
        pureRound_foldAll g hg l hl]
    · rw [dif_neg h]
      match l, hl with
      | [x], _ => rfl
      | a :: b :: rest, _ => simp at h
termination_by l => l.length
decreasing_by
  rw [pureRound_length]
  have : 2 ≤ l.length := h
  omega

/-! ### Unfolding equations for the round loop -/

theorem reduceLoop_small [Inhabited T] (f : T → T → T × Option ε)
    (items : List T) (h : items.length < 2) :
    reduceLoop f items = (items.headD default, none) := by
  rw [reduceLoop, dif_neg (by omega)]

theorem reduceLoop_err [Inhabited T] (f : T → T → T × Option ε)
    (items : List T) (h2 : 2 ≤ items.length)
    (he : ((reduceRound f items).2).isSome) :
    reduceLoop f items = (default, (reduceRound f items).2) := by
  conv_lhs => rw [reduceLoop]
  rw [dif_pos h2, dif_pos he]

theorem reduceLoop_next [Inhabited T] (f : T → T → T × Option ε)
    (items : List T) (h2 : 2 ≤ items.length)
    (he : ¬ ((reduceRound f items).2).isSome = true) :
    reduceLoop f items = reduceLoop f (reduceRound f items).1 := by
  conv_lhs => rw [reduceLoop]
  rw [dif_pos h2, dif_neg he]

theorem reduceLoopCalls_small [Inhabited T] (f : T → T → T × Option ε)
    (items : List T) (h : items.length < 2) :
    reduceLoopCalls f items = [] := by
  rw [reduceLoopCalls, dif_neg (by omega)]

theorem reduceLoopCalls_err [Inhabited T] (f : T → T → T × Option ε)
    (items : List T) (h2 : 2 ≤ items.length)
    (he : ((reduceRound f items).2).isSome) :
    reduceLoopCalls f items = roundPairs items := by
  conv_lhs => rw [reduceLoopCalls]
  rw [dif_pos h2, if_pos he, List.append_nil]

theorem reduceLoopCalls_next [Inhabited T] (f : T → T → T × Option ε)
    (items : List T) (h2 : 2 ≤ items.length)
    (he : ¬ ((reduceRound f items).2).isSome = true) :
    reduceLoopCalls f items =
      roundPairs items ++ reduceLoopCalls f (reduceRound f items).1 := by
  conv_lhs => rw [reduceLoopCalls]
  rw [dif_pos h2, if_neg he]

/-! ### Error behaviour of the round loop -/

theorem reduceLoop_err_default [Inhabited T] (f : T → T → T × Option ε)
    (items : List T) (e : ε)
    (h : (reduceLoop f items).2 = some e) :
    (reduceLoop f items).1 = default := by
  suffices hgen : ∀ (n : Nat) (l : List T), l.length = n → ∀ e : ε,
      (reduceLoop f l).2 = some e → (reduceLoop f l).1 = default from
    hgen items.length items rfl e h
  intro n
  induction n using Nat.strong_induction_on with
  | _ n ih =>
    intro l hn e h
    subst hn
    by_cases h2 : 2 ≤ l.length
    · by_cases he : ((reduceRound f l).2).isSome
      · rw [reduceLoop_err f l h2 he]
      · rw [reduceLoop_next f l h2 he] at h ⊢
        exact ih (reduceRound f l).1.length
          (by rw [reduceRound_length]; omega) _ rfl e h
    · rw [reduceLoop_small f l (by omega)] at h
      simp at h

theorem reduceLoop_err_iff [Inhabited T] (f : T → T → T × Option ε)
    (items : List T) :
    ((reduceLoop f items).2).isSome = true ↔
      ∃ p ∈ reduceLoopCalls f items, ((f p.1 p.2).2).isSome = true := by
  suffices hgen : ∀ (n : Nat) (l : List T), l.length = n →
      (((reduceLoop f l).2).isSome = true ↔
        ∃ p ∈ reduceLoopCalls f l, ((f p.1 p.2).2).isSome = true) from
    hgen items.length items rfl
  intro n
  induction n using Nat.strong_induction_on with
  | _ n ih =>
    intro l hn
    subst hn
    by_cases h2 : 2 ≤ l.length
    · by_cases he : ((reduceRound f l).2).isSome
      · rw [reduceLoop_err f l h2 he, reduceLoopCalls_err f l h2 he]
        simp only [he, true_iff]
        exact (reduceRound_err_iff f l).mp he
      · rw [reduceLoop_next f l h2 he, reduceLoopCalls_next f l h2 he]
        rw [ih (reduceRound f l).1.length
          (by rw [reduceRound_length]; omega) _ rfl]
        constructor
        · rintro ⟨p, hp, hsome⟩
          exact ⟨p, List.mem_append_right _ hp, hsome⟩
        · rintro ⟨p, hp, hsome⟩
          rcases List.mem_append.mp hp with hp | hp
          · exact absurd ((reduceRound_err_iff f l).mpr ⟨p, hp, hsome⟩) he
          · exact ⟨p, hp, hsome⟩
    · rw [reduceLoop_small f l (by omega),
        reduceLoopCalls_small f l (by omega)]
      simp

/-! ### Index placement within a round (for the round-buffer claim) -/

theorem reduceRound_pair (f : T → T → T × Option ε) :
    ∀ (l : List T) (k : Nat) (a b : T),
      l[2 * k]? = some a → l[2 * k + 1]? = some b →
        ((reduceRound f l).1)[k]? = some (f a b).1
  | [], k, a, b => by simp
  | [x], k, a, b => by
      intro h1 h2
      rcases k with _ | k
      · simp at h2
      · rw [show 2 * (k + 1) = 2 * k + 1 + 1 by omega] at h1
        simp at h1
  | x :: y :: rest, 0, a, b => by
      intro h1 h2
      simp only [Nat.mul_zero, List.getElem?_cons_zero, Option.some.injEq]
        at h1
      rw [show 2 * 0 + 1 = 0 + 1 by omega] at h2
      simp only [List.getElem?_cons_succ, List.getElem?_cons_zero,
        Option.some.injEq] at h2
      subst h1
      subst h2
      simp [reduceRound]
  | x :: y :: rest, k + 1, a, b => by
      intro h1 h2
      rw [show 2 * (k + 1) = 2 * k + 1 + 1 by omega,
        List.getElem?_cons_succ, List.getElem?_cons_succ] at h1
      rw [show 2 * (k + 1) + 1 = 2 * k + 1 + 1 + 1 by omega,
        List.getElem?_cons_succ, List.getElem?_cons_succ] at h2
      have ih := reduceRound_pair f rest k a b h1 h2
      simp only [reduceRound, List.getElem?_cons_succ]
      exact ih

theorem reduceRound_last (f : T → T → T × Option ε) :
    ∀ l : List T, l.length % 2 = 1 →
      ((reduceRound f l).1).getLast? = l.getLast?
  | [], h => by simp at h
  | [x], _ => rfl
  | x :: y :: rest, h => by
      have hr : rest.length % 2 = 1 := by
        simp only [List.length_cons] at h
        omega
      have hrne : rest ≠ [] := by
        intro hc
        rw [hc] at hr
        simp at hr
      have ih := reduceRound_last f rest hr
      obtain ⟨z, zs, hz⟩ : ∃ z zs, rest = z :: zs := by
        cases rest with
        | nil => exact absurd rfl hrne
        | cons z zs => exact ⟨z, zs, rfl⟩
      obtain ⟨c, cs, hc⟩ : ∃ c cs, (reduceRound f rest).1 = c :: cs := by
        cases hrr : (reduceRound f rest).1 with
        | nil =>
            have := reduceRound_length f rest
            rw [hrr, hz] at this
            simp at this
            omega
        | cons c cs => exact ⟨c, cs, rfl⟩
      simp only [reduceRound, hc, List.getLast?_cons_cons]
      rw [← hc, ih, hz, List.getLast?_cons_cons]

/-! ## Claims about the Reduce engine -/

/-- C2: for every nonempty input, every worker count, and every error-free
associative binary function, `ParallelReduce` returns the sequential left
fold of all elements, independent of the configured worker count
(commutativity is not used anywhere in the proof). -/
theorem claim_reduce_foldl [Inhabited T] (f : T → T → T × Option ε)
    (herr : ∀ a b, (f a b).2 = none)
    (hassoc : ∀ x y z, (f (f x y).1 z).1 = (f x (f y z).1).1)
    (x : T) (xs : List T) (opts opts' : Options) :
    ParallelReduce (x :: xs) f opts =
      (xs.foldl (fun a b => (f a b).1) x, none) ∧
    ParallelReduce (x :: xs) f opts = ParallelReduce (x :: xs) f opts' := by
  have hfg : f = fun a b => ((f a b).1, (none : Option ε)) := by
    funext a b
    exact Prod.ext rfl (herr a b)
  have key : ∀ o : Options, ParallelReduce (x :: xs) f o =
      (xs.foldl (fun a b => (f a b).1) x, none) := by
    intro o
    rw [hfg]
    show ParallelReduce (x :: xs) (fun a b => ((f a b).1, none)) o = _
    cases xs with
    | nil => rfl
    | cons y ys =>
        have hlen : ¬ (x :: y :: ys).length = 0 := by simp
        have hlen1 : ¬ (x :: y :: ys).length = 1 := by simp
        rw [ParallelReduce, if_neg hlen, if_neg hlen1]
        rw [reduceLoop_pure (fun a b => (f a b).1)
          (fun a b c => by
            have := hassoc a b c
            simpa using this)
          (x :: y :: ys) (by simp)]
        simp
  exact ⟨key opts, (key opts).trans (key opts').symm⟩

/-- Witness for C2: summing `[1..10]` yields 55 for worker counts 3 and 8
alike. -/
theorem claim_reduce_foldl_witness :
    ParallelReduce [1, 2, 3, 4, 5, 6, 7, 8, 9, 10]
      (fun a b : Nat => (a + b, (none : Option Unit)))
      (Options.mk 3 false) = (55, none) ∧
    ParallelReduce [1, 2, 3, 4, 5, 6, 7, 8, 9, 10]
      (fun a b : Nat => (a + b, (none : Option Unit)))
      (Options.mk 3 false) =
    ParallelReduce [1, 2, 3, 4, 5, 6, 7, 8, 9, 10]
      (fun a b : Nat => (a + b, (none : Option Unit)))
      (Options.mk 8 false) := by
  have h := claim_reduce_foldl
    (fun a b : Nat => (a + b, (none : Option Unit)))
    (fun _ _ => rfl)
    (fun a b c => by show a + b + c = a + (b + c); omega)
    1 [2, 3, 4, 5, 6, 7, 8, 9, 10] (Options.mk 3 false) (Options.mk 8 false)
  constructor
  · rw [h.1]
    decide
  · exact h.2

/-- C5: an error in any executed round makes the call return the zero value
with a non-nil error; the engine performs no invocation beyond the erroring
round; and the returned error is non-nil iff some executed pairwise
invocation failed. -/
theorem claim_reduce_error [Inhabited T] (f : T → T → T × Option ε) :
    (∀ (v : List T) (opts : Options) (r : T) (e : ε),
        ParallelReduce v f opts = (r, some e) → r = default) ∧
    (∀ (items : List T) (e : ε), 2 ≤ items.length →
        (reduceRound f items).2 = some e →
          reduceLoop f items = (default, some e) ∧
          reduceLoopCalls f items = roundPairs items) ∧
    (∀ (v : List T) (opts : Options),
        ((ParallelReduce v f opts).2).isSome = true ↔
          ∃ p ∈ ParallelReduceCalls v f opts,
            ((f p.1 p.2).2).isSome = true) := by
  refine ⟨?_, ?_, ?_⟩
  · intro v opts r e h
    rw [ParallelReduce] at h
    by_cases h0 : v.length = 0
    · rw [if_pos h0] at h
      simp at h
    · rw [if_neg h0] at h
      by_cases h1 : v.length = 1
      · rw [if_pos h1] at h
        simp at h
      · rw [if_neg h1] at h
        have h2 : (reduceLoop f v).2 = some e := by rw [h]
        have := reduceLoop_err_default f v e h2
        rw [h] at this
        exact this
  · intro items e h2 herr
    have hsome : ((reduceRound f items).2).isSome := by rw [herr]; rfl
    refine ⟨?_, reduceLoopCalls_err f items h2 hsome⟩
    rw [reduceLoop_err f items h2 hsome, herr]
  · intro v opts
    rw [ParallelReduce, ParallelReduceCalls]
    by_cases h0 : v.length = 0
    · rw [if_pos h0, if_pos (by omega)]
      simp
    · rw [if_neg h0]
      by_cases h1 : v.length = 1
      · rw [if_pos h1, if_pos (by omega)]
        simp
      · rw [if_neg h1, if_neg (by omega)]
        exact reduceLoop_err_iff f v

/-- Witness for C5: with a function failing on the pair `(1, 2)`, reducing
`[1, 2, 3, 4]` returns the zero value `0` with the error, and only the first
round's two pairs are ever invoked. -/
theorem claim_reduce_error_witness :
    reduceLoop (fun a b : Nat => if a = 1 then (0, some 9) else (a + b, none))
      [1, 2, 3, 4] = (0, some 9) ∧
    reduceLoopCalls
      (fun a b : Nat => if a = 1 then (0, some 9) else (a + b, none))
      [1, 2, 3, 4] = [(1, 2), (3, 4)] := by
  have h := (claim_reduce_error
    (fun a b : Nat => if a = 1 then (0, some 9) else (a + b, none))).2.1
    [1, 2, 3, 4] 9 (by decide) (by decide)
  exact ⟨h.1, h.2⟩

/-- C6: in every round, pair `k` is `(items[2k], items[2k+1])`, its result
lands in slot `k` of the round buffer, the buffer has length exactly
`⌈m/2⌉`, an odd trailing element is copied unmodified into the buffer's
final slot, and an error-free round's buffer becomes the next round's
input. -/
theorem claim_reduce_round_buffer [Inhabited T] (f : T → T → T × Option ε) :
    (∀ l : List T, (reduceRound f l).1.length = (l.length + 1) / 2) ∧
    (∀ (l : List T) (k : Nat) (a b : T),
        l[2 * k]? = some a → l[2 * k + 1]? = some b →
          ((reduceRound f l).1)[k]? = some (f a b).1) ∧
    (∀ l : List T, l.length % 2 = 1 →
        ((reduceRound f l).1).getLast? = l.getLast?) ∧
    (∀ l : List T, 2 ≤ l.length → (reduceRound f l).2 = none →
        reduceLoop f l = reduceLoop f (reduceRound f l).1) := by
  refine ⟨reduceRound_length f, reduceRound_pair f, reduceRound_last f, ?_⟩
  intro l h2 hnone
  exact reduceLoop_next f l h2 (by rw [hnone]; simp)

/-- Witness for C6 at `[1, 2, 3]` with addition: the round buffer is
`[3, 3]`, of length `⌈3/2⌉ = 2`, pair 0 is `(1, 2)`, and the odd element `3`
sits unmodified in the final slot. -/
theorem claim_reduce_round_buffer_witness :
    (reduceRound (fun a b : Nat => (a + b, (none : Option Unit)))
      [1, 2, 3]).1.length = 2 ∧
    ((reduceRound (fun a b : Nat => (a + b, (none : Option Unit)))
      [1, 2, 3]).1)[0]? = some 3 ∧
    ((reduceRound (fun a b : Nat => (a + b, (none : Option Unit)))
      [1, 2, 3]).1).getLast? = some 3 ∧
    reduceLoop (fun a b : Nat => (a + b, (none : Option Unit))) [1, 2, 3] =
      reduceLoop (fun a b : Nat => (a + b, (none : Option Unit))) [3, 3] := by
  have h := claim_reduce_round_buffer
    (fun a b : Nat => (a + b, (none : Option Unit)))
  refine ⟨h.1 [1, 2, 3], ?_, h.2.2.1 [1, 2, 3] (by decide), ?_⟩
  · exact h.2.1 [1, 2, 3] 0 1 2 (by decide) (by decide)
  · exact h.2.2.2 [1, 2, 3] (by decide) (by decide)

/-- C8: `ParallelReduce` on an empty input returns the zero value with no
error; on a single-element input it returns that element with no error; in
both cases it never invokes the combining function (`ParallelReduceCalls`
is empty). -/
theorem claim_reduce_edge [Inhabited T] (f : T → T → T × Option ε)
    (opts : Options) :
    ParallelReduce ([] : List T) f opts = (default, none) ∧
    (∀ x : T, ParallelReduce [x] f opts = (x, none)) ∧
    ParallelReduceCalls ([] : List T) f opts = [] ∧
    (∀ x : T, ParallelReduceCalls [x] f opts = []) :=
  ⟨rfl, fun _ => rfl, rfl, fun _ => rfl⟩

/-- C9: every round over at least two elements shrinks the element count to
exactly `⌈m/2⌉ < m`; this is the measure by which the Lean embedding of the
round loop (`reduceLoop`) is proved total, so the loop reaches a single
element after finitely many rounds for every input and every terminating
combining function. -/
theorem claim_reduce_terminates (f : T → T → T × Option ε) (l : List T)
    (h : 2 ≤ l.length) :
    (reduceRound f l).1.length = (l.length + 1) / 2 ∧
    (reduceRound f l).1.length < l.length := by
  refine ⟨reduceRound_length f l, ?_⟩
  rw [reduceRound_length f l]
  omega

/-- Witness for C9: a round over four elements yields two. -/
theorem claim_reduce_terminates_witness :
    (reduceRound (fun a b : Nat => (a * b, (none : Option Unit)))
      [1, 2, 3, 4]).1.length = 2 ∧
    (reduceRound (fun a b : Nat => (a * b, (none : Option Unit)))
      [1, 2, 3, 4]).1.length < 4 := by
  exact claim_reduce_terminates
    (fun a b : Nat => (a * b, (none : Option Unit))) [1, 2, 3, 4] (by decide)

/-! ## The Transform engine (`src/unnamed/part_002`, function
`ParallelTransform`)

`part_002` lines 23-88: `opts.workers` worker goroutines pull
`transformJob` values (an item plus its destination index) from a buffered
channel holding one job per input element.  Each worker invokes `f` on
every job it pulls and writes the result to `results[job.index]` — the
pre-sized output buffer, disjoint index per job.  On an error the worker
CASes the `firstErr` latch; in continue mode (`stopOnError = false`) it
then keeps processing, in fail-fast mode it spawns a goroutine that drains
the remaining jobs without invoking `f` and returns.  After `wg.Wait()`,
a latched error is returned as `(nil, err)` in fail-fast mode and
`(results, err)` in continue mode (lines 80-85).

Deterministic consequences (independent of scheduling):
* in continue mode every job is invoked exactly once, so
  `results[i] = f(v[i]).value` for every `i` — including indices whose
  invocation returned an error, because line 66 stores the value component
  `result` returned by `f` unconditionally;
* the latch is non-nil iff some invocation returned an error.

`ParallelTransform` below is the executable reference: it models every run
in continue mode, and in fail-fast mode the (always admissible) runs in
which every job was invoked; the latched error is fixed to the
earliest-index one.  All fail-fast runs, including those where the drainer
swallowed some jobs, are modelled by `FFRun`. -/

variable {I : Type} {O : Type}

/-- The output buffer after all jobs ran: slot `i` holds the value component
of `f v[i]` (`results[job.index] = result`, `part_002` line 66). -/
def transformResults (f : I → O × Option ε) (v : List I) : List O :=
  v.map fun x => (f x).1

/-- The first-latched error, fixed to earliest index order (`firstErr`
CAS, `part_002` lines 52-63); `none` iff no invocation errored. -/
def transformFirstErr (f : I → O × Option ε) (v : List I) : Option ε :=
  (v.filterMap fun x => (f x).2).head?

/-- Embeds `ParallelTransform` (`part_002` lines 23-88): continue mode
returns the full buffer plus the latched error; fail-fast mode returns
`(nil, err)` when the latch is set (lines 80-85). -/
def ParallelTransform (v : List I) (f : I → O × Option ε)
    (opts : Options) : Option (List O) × Option ε :=
  match transformFirstErr f v, opts.stopOnError with
  | some e, true => (none, some e)
  | some e, false => (some (transformResults f v), some e)
  | none, _ => (some (transformResults f v), none)

/-- Scheduling abstraction of one fail-fast `ParallelTransform` run
(`part_002` with `stopOnError = true`).  `invoked` is the sub-list of `v`
whose jobs were pulled by a worker and hence had `f` invoked on them; the
remaining jobs were consumed by the drain goroutine of line 55, which only
exists once an invocation has errored and the latch has been CASed, giving
`drain_after_latch`.  `latched` is the content of `firstErr` after
`wg.Wait()`: nil iff no invocation errored (`latched_none`), and always one
of the errors actually returned by `f` (`latched_mem`). -/
structure FFRun (f : I → O × Option ε) (v : List I) where
  invoked : List I
  sub : invoked.Sublist v
  drain_after_latch : invoked ≠ v → ∃ x ∈ invoked, ((f x).2).isSome = true
  latched : Option ε
  latched_none : latched = none ↔ ∀ x ∈ invoked, (f x).2 = none
  latched_mem : ∀ e, latched = some e → ∃ x ∈ invoked, (f x).2 = some e

/-- The observable of a fail-fast run: a set latch discards the buffer and
returns the error (`part_002` lines 80-83); an empty latch means no
invocation errored, hence (by `drain_after_latch`) no drain happened, every
job ran, and the full buffer is returned. -/
def FFRun.output {f : I → O × Option ε} {v : List I} (r : FFRun f v) :
    Option (List O) × Option ε :=
  match r.latched with
  | some e => (none, some e)
  | none => (some (transformResults f v), none)

/-! ## Claims about the Transform engine -/

/-- C1: with an error-free mapping function, `ParallelTransform` returns —
for every worker count and in both error modes, including every admissible
fail-fast schedule — the full output of length `N` with
`output[i] = f(input[i])`, and no error. -/
theorem claim_transform_ok (f : I → O × Option ε) (v : List I)
    (opts : Options) (hf : ∀ x ∈ v, (f x).2 = none) :
    ParallelTransform v f opts = (some (transformResults f v), none) ∧
    (transformResults f v).length = v.length ∧
    (∀ (i : Nat) (a : I), v[i]? = some a →
        (transformResults f v)[i]? = some (f a).1) ∧
    (∀ r : FFRun f v, r.output = (some (transformResults f v), none)) := by
  have herr : transformFirstErr f v = none := by
    unfold transformFirstErr
    rw [List.filterMap_eq_nil_iff.mpr hf]
    rfl
  refine ⟨?_, List.length_map v _, ?_, ?_⟩
  · unfold ParallelTransform
    rw [herr]
  · intro i a h
    unfold transformResults
    rw [List.getElem?_map, h]
    rfl
  · intro r
    have hl : r.latched = none :=
      r.latched_none.mpr fun x hx => hf x (r.sub.subset hx)
    unfold FFRun.output
    rw [hl]

/-- Witness for C1: doubling `[1, 2, 3]` with two workers. -/
theorem claim_transform_ok_witness :
    ParallelTransform [1, 2, 3] (fun x : Nat => (2 * x, (none : Option Unit)))
      (Options.mk 2 false) = (some [2, 4, 6], none) := by
  have h := claim_transform_ok
    (fun x : Nat => (2 * x, (none : Option Unit))) [1, 2, 3]
    (Options.mk 2 false) (by decide)
  rw [h.1]
  decide

/-- C3, counterexample: the claim says a continue-mode output slot whose
invocation errored holds the zero value of the output type.  In the code
(`part_002` line 66) the slot holds whatever value component `f` returned
alongside the error: with `f = fun x => (7, some 0)` the output slot holds
`7`, not the zero value `0`. -/
theorem claim_transform_continue_zero_counterexample :
    ParallelTransform [5] (fun _ : Nat => ((7 : Nat), some (0 : Nat)))
      (Options.mk 2 false) = (some [7], some 0) ∧
    (((fun _ : Nat => ((7 : Nat), some (0 : Nat))) 5).2).isSome = true ∧
    (7 : Nat) ≠ (default : Nat) := by
  refine ⟨by decide, by decide, by decide⟩

/-- C3 as amended: in continue mode the output always has the input's
length; slot `i` holds the value component of `f v[i]` — which is the zero
value whenever `f` follows the convention of returning the zero value
alongside an error, but in general is whatever `f` returned; and the
returned error is non-nil iff at least one invocation errored (and is then
one of the errors `f` returned). -/
theorem claim_transform_continue_amended (f : I → O × Option ε)
    (v : List I) (opts : Options) (hmode : opts.stopOnError = false) :
    ∃ out err, ParallelTransform v f opts = (some out, err) ∧
      out.length = v.length ∧
      (∀ (i : Nat) (a : I), v[i]? = some a → out[i]? = some (f a).1) ∧
      (err.isSome = true ↔ ∃ x ∈ v, ((f x).2).isSome = true) ∧
      (∀ e, err = some e → ∃ x ∈ v, (f x).2 = some e) := by
  refine ⟨transformResults f v, transformFirstErr f v, ?_, List.length_map v _,
    ?_, ?_, ?_⟩
  · unfold ParallelTransform
    rw [hmode]
    cases transformFirstErr f v <;> rfl
  · intro i a h
    unfold transformResults
    rw [List.getElem?_map, h]
    rfl
  · unfold transformFirstErr
    rw [List.head?_isSome]
    constructor
    · intro hne
      rcases List.exists_mem_of_ne_nil _ hne with ⟨e, he⟩
      rcases List.mem_filterMap.mp he with ⟨x, hx, hfe⟩
      exact ⟨x, hx, by rw [hfe]; rfl⟩
    · rintro ⟨x, hx, hsome⟩
      intro hnil
      have := List.filterMap_eq_nil_iff.mp hnil x hx
      rw [this] at hsome
      simp at hsome
  · intro e he
    have hmem : e ∈ v.filterMap fun x => (f x).2 :=
      List.mem_of_mem_head? (Option.mem_def.mpr he)
    exact List.mem_filterMap.mp hmem

/-- Witness for the amended C3: a function erroring on even inputs over
`[1, 2, 3]` in continue mode. -/
theorem claim_transform_continue_amended_witness :
    ∃ out err,
      ParallelTransform [1, 2, 3]
        (fun x : Nat => if x % 2 = 0 then ((0 : Nat), some (0 : Nat))
          else (2 * x, none))
        (Options.mk 2 false) = (some out, err) ∧
      out.length = ([1, 2, 3] : List Nat).length ∧
      (∀ (i : Nat) (a : Nat), ([1, 2, 3] : List Nat)[i]? = some a →
        out[i]? = some ((fun x : Nat => if x % 2 = 0 then
          ((0 : Nat), some (0 : Nat)) else (2 * x, none)) a).1) ∧
      (err.isSome = true ↔ ∃ x ∈ ([1, 2, 3] : List Nat),
        (((fun x : Nat => if x % 2 = 0 then ((0 : Nat), some (0 : Nat))
          else (2 * x, none)) x).2).isSome = true) ∧
      (∀ e, err = some e → ∃ x ∈ ([1, 2, 3] : List Nat),
        ((fun x : Nat => if x % 2 = 0 then ((0 : Nat), some (0 : Nat))
          else (2 * x, none)) x).2 = some e) :=
  claim_transform_continue_amended
    (fun x : Nat => if x % 2 = 0 then ((0 : Nat), some (0 : Nat))
      else (2 * x, none))
    [1, 2, 3] (Options.mk 2 false) rfl

/-- C4: in fail-fast mode, if at least one invocation of `f` errors, the
call returns a nil output together with a non-nil error that is one of the
errors returned by `f` — over every admissible schedule (`FFRun`) and in
particular in the executable reference run. -/
theorem claim_transform_failfast (f : I → O × Option ε) (v : List I)
    (hex : ∃ x ∈ v, ((f x).2).isSome = true) :
    (∀ r : FFRun f v, ∃ e, r.output = (none, some e) ∧
        ∃ x ∈ v, (f x).2 = some e) ∧
    (∀ opts : Options, opts.stopOnError = true →
        ∃ e, ParallelTransform v f opts = (none, some e) ∧
          ∃ x ∈ v, (f x).2 = some e) := by
  constructor
  · intro r
    cases hl : r.latched with
    | none =>
        exfalso
        have hclean := r.latched_none.mp hl
        by_cases hinv : r.invoked = v
        · rcases hex with ⟨x, hx, hsome⟩
          rw [hclean x (by rw [hinv]; exact hx)] at hsome
          simp at hsome
        · rcases r.drain_after_latch hinv with ⟨y, hy, hysome⟩
          rw [hclean y hy] at hysome
          simp at hysome
    | some e =>
        refine ⟨e, ?_, ?_⟩
        · unfold FFRun.output
          rw [hl]
        · rcases r.latched_mem e hl with ⟨x, hx, hfe⟩
          exact ⟨x, r.sub.subset hx, hfe⟩
  · intro opts hmode
    have hne : (v.filterMap fun x => (f x).2) ≠ [] := by
      intro hnil
      rcases hex with ⟨x, hx, hsome⟩
      rw [List.filterMap_eq_nil_iff.mp hnil x hx] at hsome
      simp at hsome
    have hsome : (transformFirstErr f v).isSome = true := by
      unfold transformFirstErr
      rw [List.head?_isSome]
      exact hne
    rcases Option.isSome_iff_exists.mp hsome with ⟨e, he⟩
    refine ⟨e, ?_, ?_⟩
    · unfold ParallelTransform
      rw [hmode, he]
    · exact List.mem_filterMap.mp
        (List.mem_of_mem_head? (Option.mem_def.mpr he))

/-- Witness for C4: over `[1, 2, 3]` with a function erroring on `2`, the
fail-fast call returns `(nil, error)` with an error that `f` returned. -/
theorem claim_transform_failfast_witness :
    ∃ e, ParallelTransform [1, 2, 3]
        (fun x : Nat => (x, if x = 2 then some (0 : Nat) else none))
        (Options.mk 2 true) = (none, some e) ∧
      ∃ x ∈ ([1, 2, 3] : List Nat),
        ((fun x : Nat => (x, if x = 2 then some (0 : Nat) else none)) x).2 =
          some e := by
  have h := claim_transform_failfast
    (fun x : Nat => (x, if x = 2 then some (0 : Nat) else none)) [1, 2, 3]
    ⟨2, by decide, by decide⟩
  exact h.2 (Options.mk 2 true) rfl

/-! ## Operational model of the fail-fast Transform worker pool

Small-step interleaving semantics of `part_002` lines 41-77 with
`stopOnError = true`, used for the temporal claims.  A state holds the jobs
still in the channel (`queue`, identified by their destination index; the
main goroutine fills the buffered channel without blocking, so all jobs are
modelled as enqueued up front), the status of each of the `opts.workers`
worker goroutines (`wstat`), whether the `firstErr` latch has been CASed
(`latch`), and whether at least one drain goroutine of line 55 exists
(`draining`).  `errs j` abstracts whether `f` errors on job `j`.

The worker body (lines 48-67) receives a job and immediately invokes `f`
on it — there is no latch check between the channel receive and the call —
so pulling a job and starting the invocation form one step, `pull`.
A finished invocation either loops back (`finishOk`, no error) or CASes the
latch, spawns the drainer and returns (`finishErr`, lines 52-60).  The
drainer consumes queued jobs without invoking `f` (`drainJob`), and an idle
worker whose channel is exhausted returns (`wdone`). -/

/-- Status of one worker goroutine: waiting on the channel, executing `f`
on job `j`, or returned. -/
inductive WStatus : Type
  | idle : WStatus
  | running : Nat → WStatus
  | done : WStatus
deriving DecidableEq

/-- A state of the fail-fast worker pool. -/
structure PoolState : Type where
  queue : List Nat
  wstat : List WStatus
  latch : Bool
  draining : Bool
deriving DecidableEq

/-- Observable events of the pool. -/
inductive PoolLabel : Type
  | pull : Nat → Nat → PoolLabel
  | finish : Nat → Nat → PoolLabel
  | drainJob : Nat → PoolLabel
  | wdone : Nat → PoolLabel
deriving DecidableEq

/-- One interleaving step of the fail-fast worker pool; `errs j` tells
whether the invocation of `f` on job `j` returns an error. -/
inductive PoolStep (errs : Nat → Bool) : PoolState → PoolLabel → PoolState → Prop
  | pull (s : PoolState) (k j : Nat) (rest : List Nat) :
      s.wstat[k]? = some .idle → s.queue = j :: rest →
      PoolStep errs s (.pull k j)
        ⟨rest, s.wstat.set k (.running j), s.latch, s.draining⟩
  | finishOk (s : PoolState) (k j : Nat) :
      s.wstat[k]? = some (.running j) → errs j = false →
      PoolStep errs s (.finish k j)
        ⟨s.queue, s.wstat.set k .idle, s.latch, s.draining⟩
  | finishErr (s : PoolState) (k j : Nat) :
      s.wstat[k]? = some (.running j) → errs j = true →
      PoolStep errs s (.finish k j)
        ⟨s.queue, s.wstat.set k .done, true, true⟩
  | drainJob (s : PoolState) (j : Nat) (rest : List Nat) :
      s.draining = true → s.queue = j :: rest →
      PoolStep errs s (.drainJob j) ⟨rest, s.wstat, s.latch, s.draining⟩
  | wdone (s : PoolState) (k : Nat) :
      s.wstat[k]? = some .idle → s.queue = [] →
      PoolStep errs s (.wdone k)
        ⟨s.queue, s.wstat.set k .done, s.latch, s.draining⟩

/-- Finite traces of a labelled transition relation. -/
inductive Star {σ α : Type} (R : σ → α → σ → Prop) : σ → List α → σ → Prop
  | refl (s : σ) : Star R s [] s
  | step (s s' s'' : σ) (a : α) (ls : List α) :
      R s a s' → Star R s' ls s'' → Star R s (a :: ls) s''

/-- Initial pool state: one job per input element in the channel, `w` idle
workers (`part_002` lines 41-46), latch clear, no drainer. -/
def poolInit (w : Nat) (jobs : List Nat) : PoolState :=
  ⟨jobs, List.replicate w .idle, false, false⟩

/-- Number of workers currently executing an invocation of `f`. -/
def runningCount (s : PoolState) : Nat :=
  s.wstat.countP fun st =>
    match st with
    | .running _ => true
    | _ => false

/-- C7, counterexample: the claim says that once an error has been latched,
no invocation of `f` is started on any job pulled after the latching.  In
the code the worker loop (`part_002` lines 48-49) has no latch check
between receiving a job and invoking `f`; only the worker that latched the
error returns.  Concretely, with two workers and jobs `[0, 1]` where job
`0` errors: worker 0 pulls job 0 and errors (latch set), after which worker
1 can still pull job 1 and start invoking `f` on it. -/
theorem claim_transform_latch_dispatch_counterexample :
    ¬ (∀ (s : PoolState) (ls : List PoolLabel),
        Star (PoolStep fun j => j == 0) (poolInit 2 [0, 1]) ls s →
        s.latch = true →
        ∀ (k j : Nat) (s' : PoolState),
          ¬ PoolStep (fun j => j == 0) s (.pull k j) s') := by
  intro hclaim
  have h1 : PoolStep (fun j => j == 0) (poolInit 2 [0, 1]) (.pull 0 0)
      ⟨[1], [.running 0, .idle], false, false⟩ :=
    PoolStep.pull (poolInit 2 [0, 1]) 0 0 [1] rfl rfl
  have h2 : PoolStep (fun j => j == 0)
      ⟨[1], [.running 0, .idle], false, false⟩ (.finish 0 0)
      ⟨[1], [.done, .idle], true, true⟩ :=
    PoolStep.finishErr ⟨[1], [.running 0, .idle], false, false⟩ 0 0 rfl rfl
  have h3 : PoolStep (fun j => j == 0)
      ⟨[1], [.done, .idle], true, true⟩ (.pull 1 1)
      ⟨[], [.done, .running 1], true, true⟩ :=
    PoolStep.pull ⟨[1], [.done, .idle], true, true⟩ 1 1 [] rfl rfl
  have hstar : Star (PoolStep fun j => j == 0) (poolInit 2 [0, 1])
      [.pull 0 0, .finish 0 0] ⟨[1], [.done, .idle], true, true⟩ :=
    Star.step _ _ _ _ _ h1 (Star.step _ _ _ _ _ h2 (Star.refl _))
  exact hclaim _ _ hstar rfl 1 1 _ h3

/-- C7 as amended: once an error is latched, the worker that latched it
takes no further jobs (a returned worker stays returned and never pulls),
but other workers may continue to pull jobs and invoke `f` on them (see the
counterexample); an in-flight invocation is never interrupted — its
worker's status can only be changed by that invocation's own completion —
and once any error is latched the call discards all results, returning a
nil output with the latched error. -/
theorem claim_transform_latch_dispatch_amended {I O ε : Type} :
    (∀ (errs : Nat → Bool) (s : PoolState) (a : PoolLabel) (s' : PoolState)
        (k : Nat), PoolStep errs s a s' → s.wstat[k]? = some .done →
          s'.wstat[k]? = some .done) ∧
    (∀ (errs : Nat → Bool) (s : PoolState) (k j : Nat) (s' : PoolState),
        s.wstat[k]? = some .done → ¬ PoolStep errs s (.pull k j) s') ∧
    (∀ (errs : Nat → Bool) (s : PoolState) (a : PoolLabel) (s' : PoolState)
        (k j : Nat), PoolStep errs s a s' →
          s.wstat[k]? = some (.running j) →
          s'.wstat[k]? = some (.running j) ∨ a = .finish k j) ∧
    (∀ (f : I → O × Option ε) (v : List I) (r : FFRun f v) (e : ε),
        r.latched = some e → r.output = (none, some e)) := by
  refine ⟨?_, ?_, ?_, ?_⟩
  · intro errs s a s' k hstep hdone
    cases hstep with
    | pull k' j rest hidle hq =>
        by_cases hk : k' = k
        · subst hk
          rw [hdone] at hidle
          simp at hidle
        · show (s.wstat.set k' _)[k]? = some .done
          rw [List.getElem?_set_ne hk]
          exact hdone
    | finishOk k' j hrun herr =>
        by_cases hk : k' = k
        · subst hk
          rw [hdone] at hrun
          simp at hrun
        · show (s.wstat.set k' _)[k]? = some .done
          rw [List.getElem?_set_ne hk]
          exact hdone
    | finishErr k' j hrun herr =>
        by_cases hk : k' = k
        · subst hk
          rw [hdone] at hrun
          simp at hrun
        · show (s.wstat.set k' _)[k]? = some .done
          rw [List.getElem?_set_ne hk]
          exact hdone
    | drainJob j rest hdr hq =>
        exact hdone
    | wdone k' hidle hq =>
        by_cases hk : k' = k
        · subst hk
          rw [hdone] at hidle
          simp at hidle
        · show (s.wstat.set k' _)[k]? = some .done
          rw [List.getElem?_set_ne hk]
          exact hdone
  · intro errs s k j s' hdone hstep
    cases hstep
    simp_all
  · intro errs s a s' k j hstep hrun
    cases hstep with
    | pull k' j' rest hidle hq =>
        by_cases hk : k' = k
        · subst hk
          rw [hrun] at hidle
          simp at hidle
        · left
          show (s.wstat.set k' _)[k]? = some (.running j)
          rw [List.getElem?_set_ne hk]
          exact hrun
    | finishOk k' j' hrun' herr =>
        by_cases hk : k' = k
        · subst hk
          rw [hrun] at hrun'
          right
          have : j' = j := by
            injection hrun' with h
            injection h with h'
            exact h'.symm
          rw [this]
        · left
          show (s.wstat.set k' _)[k]? = some (.running j)
          rw [List.getElem?_set_ne hk]
          exact hrun
    | finishErr k' j' hrun' herr =>
        by_cases hk : k' = k
        · subst hk
          rw [hrun] at hrun'
          right
          have : j' = j := by
            injection hrun' with h
            injection h with h'
            exact h'.symm
          rw [this]
        · left
          show (s.wstat.set k' _)[k]? = some (.running j)
          rw [List.getElem?_set_ne hk]
          exact hrun
    | drainJob j' rest hdr hq =>
        left
        exact hrun
    | wdone k' hidle hq =>
        by_cases hk : k' = k
        · subst hk
          rw [hrun] at hidle
          simp at hidle
        · left
          show (s.wstat.set k' _)[k]? = some (.running j)
          rw [List.getElem?_set_ne hk]
          exact hrun
  · intro f v r e hl
    unfold FFRun.output
    rw [hl]

/-- A concrete fail-fast run over `[1, 2, 3]` with the mapping function
erroring on the element `2`: every job was invoked and the error of element
`2` won the latch. -/
def ffRunExample :
    FFRun (fun x : Nat => (x, if x = 2 then some (0 : Nat) else none))
      [1, 2, 3] where
  invoked := [1, 2, 3]
  sub := List.Sublist.refl _
  drain_after_latch := fun h => absurd rfl h
  latched := some 0
  latched_none := by
    constructor
    · intro h
      cases h
    · intro h
      have h2 := h 2 (by decide)
      simp at h2
  latched_mem := by
    intro e he
    injection he with h
    subst h
    exact ⟨2, by decide, by decide⟩

/-- Witness for the amended C7: a returned worker stays returned across a
drain step and cannot pull; a drain step leaves a running invocation
untouched; the concrete latched run discards its output. -/
theorem claim_transform_latch_dispatch_amended_witness :
    ((⟨[], [WStatus.done], true, true⟩ : PoolState).wstat[0]? =
        some .done) ∧
    (¬ PoolStep (fun _ => false) ⟨[5], [WStatus.done], true, true⟩
        (.pull 0 5) ⟨[], [WStatus.running 5], true, true⟩) ∧
    ((⟨[], [WStatus.running 3], false, true⟩ : PoolState).wstat[0]? =
        some (.running 3) ∨ PoolLabel.drainJob 5 = .finish 0 3) ∧
    ffRunExample.output = (none, some 0) := by
  have h := claim_transform_latch_dispatch_amended
    (I := Nat) (O := Nat) (ε := Nat)
  refine ⟨?_, ?_, ?_, ?_⟩
  · exact h.1 (fun _ => false) ⟨[5], [WStatus.done], true, true⟩
      (.drainJob 5) ⟨[], [WStatus.done], true, true⟩ 0
      (PoolStep.drainJob ⟨[5], [WStatus.done], true, true⟩ 5 [] rfl rfl) rfl
  · exact h.2.1 (fun _ => false) ⟨[5], [WStatus.done], true, true⟩ 0 5
      ⟨[], [WStatus.running 5], true, true⟩ rfl
  · exact h.2.2.1 (fun _ => false) ⟨[5], [WStatus.running 3], false, true⟩
      (.drainJob 5) ⟨[], [WStatus.running 3], false, true⟩ 0 3
      (PoolStep.drainJob ⟨[5], [WStatus.running 3], false, true⟩ 5 [] rfl
        rfl) rfl
  · exact h.2.2.2 (fun x : Nat => (x, if x = 2 then some (0 : Nat) else none))
      [1, 2, 3] ffRunExample 0 rfl

/-! ## Operational model of the Reduce engine's semaphore gating

`part_001` lines 38-59: per round the main goroutine sends into a channel
of capacity `opts.workers` (`sem <- struct{}{}`, blocking while full)
before spawning each pair's goroutine; the goroutine releases its slot
(`defer func() { <-sem }()`) only after `f` returned and the result was
written.  A state counts the pairs not yet dispatched, the slots currently
held, and the goroutines currently executing `f`; a goroutine holds its
slot for at least the whole execution of `f`, so `running ≤ held ≤
capacity` throughout. -/

/-- A state of one semaphore-gated Reduce round. -/
structure SemState : Type where
  toDispatch : Nat
  held : Nat
  running : Nat
deriving DecidableEq

/-- Events of the semaphore model. -/
inductive SemLabel : Type
  | dispatch : SemLabel
  | release : SemLabel
deriving DecidableEq

/-- One step of the semaphore-gated round with capacity `w`: dispatching a
pair requires a free slot (the main goroutine blocks on `sem <- struct{}{}`
otherwise) and starts an invocation; an invocation finishing releases its
slot (`<-sem`). -/
inductive SemStep (w : Nat) : SemState → SemLabel → SemState → Prop
  | dispatch (s : SemState) : 0 < s.toDispatch → s.held < w →
      SemStep w s .dispatch ⟨s.toDispatch - 1, s.held + 1, s.running + 1⟩
  | release (s : SemState) : 0 < s.running →
      SemStep w s .release ⟨s.toDispatch, s.held - 1, s.running - 1⟩

/-- Initial state of a round with `m` pairs: no slot held, nothing running
(`sem := make(chan struct{}, opts.workers)` is empty). -/
def semInit (m : Nat) : SemState :=
  ⟨m, 0, 0⟩

/-- An invariant preserved by every step holds in every reachable state. -/
theorem star_invariant {σ α : Type} (R : σ → α → σ → Prop) (P : σ → Prop)
    (hstep : ∀ s a s', R s a s' → P s → P s') :
    ∀ (s : σ) (ls : List α) (s' : σ), Star R s ls s' → P s → P s' := by
  intro s ls s' h
  induction h with
  | refl s => exact id
  | step s s' s'' a ls hr _ ih => exact fun hp => ih (hstep _ _ _ hr hp)

/-- Pool steps never change the number of worker goroutines. -/
theorem poolStep_wstat_length (errs : Nat → Bool) (s : PoolState)
    (a : PoolLabel) (s' : PoolState) (h : PoolStep errs s a s') :
    s'.wstat.length = s.wstat.length := by
  cases h <;> simp [List.length_set]

/-- C10: at no instant are more than `effectiveWorkers` invocations of the
user function executing — in the Transform pool (each of the
`effectiveWorkers` workers runs at most one invocation at a time) and in
every Reduce round (an invocation holds a semaphore slot, of which only
`effectiveWorkers` exist). -/
theorem claim_worker_bound (numCPU : Nat) (opts : Options) :
    (∀ (errs : Nat → Bool) (jobs : List Nat) (ls : List PoolLabel)
        (s : PoolState),
        Star (PoolStep errs) (poolInit (effectiveWorkers numCPU opts) jobs)
          ls s →
        runningCount s ≤ effectiveWorkers numCPU opts) ∧
    (∀ (m : Nat) (ls : List SemLabel) (s : SemState),
        Star (SemStep (effectiveWorkers numCPU opts)) (semInit m) ls s →
        s.running ≤ effectiveWorkers numCPU opts) := by
  constructor
  · intro errs jobs ls s hstar
    have hlen : s.wstat.length = effectiveWorkers numCPU opts := by
      have := star_invariant (PoolStep errs)
        (fun t => t.wstat.length = effectiveWorkers numCPU opts)
        (fun t a t' hstep hp => by
          show t'.wstat.length = effectiveWorkers numCPU opts
          rw [poolStep_wstat_length errs t a t' hstep]
          exact hp)
        _ ls s hstar
      exact this (by simp [poolInit])
    calc runningCount s ≤ s.wstat.length := List.countP_le_length _
      _ = effectiveWorkers numCPU opts := hlen
  · intro m ls s hstar
    have hinv : s.running ≤ s.held ∧ s.held ≤ effectiveWorkers numCPU opts := by
      have := star_invariant (SemStep (effectiveWorkers numCPU opts))
        (fun t => t.running ≤ t.held ∧ t.held ≤ effectiveWorkers numCPU opts)
        (fun t a t' hstep hp => by
          obtain ⟨h1, h2⟩ := hp
          cases hstep with
          | dispatch hd hw => exact ⟨Nat.succ_le_succ h1, hw⟩
          | release hr =>
              refine ⟨?_, ?_⟩
              · show t.running - 1 ≤ t.held - 1
                omega
              · show t.held - 1 ≤ effectiveWorkers numCPU opts
                omega)
        _ ls s hstar
      exact this ⟨Nat.le.refl, Nat.zero_le _⟩
    omega

/-- Witness for C10: with `opts.workers = 3` (and 4 CPUs) the bound holds in
the initial states of both models. -/
theorem claim_worker_bound_witness :
    runningCount (poolInit (effectiveWorkers 4 (Options.mk 3 true)) [0, 1])
      ≤ effectiveWorkers 4 (Options.mk 3 true) ∧
    (semInit 5).running ≤ effectiveWorkers 4 (Options.mk 3 true) := by
  have h := claim_worker_bound 4 (Options.mk 3 true)
  exact ⟨h.1 (fun _ => false) [0, 1] [] _ (Star.refl _),
    h.2 5 [] _ (Star.refl _)⟩
